import Mathlib

/-!
Shallow embedding of the Source-Line Correlation & Patch Application Engine
of the FedDualFix repository (files `src/parse.py` and `src/patch.py`).

Python strings are modelled as Lean `String`; Python `int` as `Int`;
Python lists as Lean `List`.  Fallible operations (Python exceptions)
return `Except`.  Machine-level details that the claims depend on
(Python's negative-index wrapping, `list += str` extending with single
characters, heterogeneous str/list cells) are modelled explicitly.
-/

namespace FedDualFix

/-- The whitespace characters matched by Python's `\s` and stripped by
`str.strip()` for the ASCII range used throughout the repository. -/
def isPySpace (c : Char) : Bool :=
  c = ' ' || c = '\t' || c = '\n' || c = '\r' || c = '\x0b' || c = '\x0c'

/-- Python `str.strip()`. -/
def pyStrip (s : String) : String :=
  ⟨((s.data.dropWhile isPySpace).reverse.dropWhile isPySpace).reverse⟩

/-- Python `str.lstrip()`. -/
def pyLstrip (s : String) : String :=
  ⟨s.data.dropWhile isPySpace⟩

/-- Python `str.rstrip()`. -/
def pyRstrip (s : String) : String :=
  ⟨(s.data.reverse.dropWhile isPySpace).reverse⟩

/-- Python `s[1:]` on a string. -/
def strTail (s : String) : String :=
  ⟨s.data.drop 1⟩

/-- Python `s.startswith(p)`. -/
def pyStartsWith (s p : String) : Bool :=
  p.data.isPrefixOf s.data

/-- Models `needle in hay` for Python strings (substring containment). -/
def pyContains (hay needle : String) : Bool :=
  hay.data.tails.any (fun t => needle.data.isPrefixOf t)

/-- Line-terminator characters recognised by Python `str.splitlines`
(for the character set appearing in this repository). -/
def isLineBreak (c : Char) : Bool :=
  c = '\n' || c = '\r' || c = '\x0b' || c = '\x0c' || c = '\x1c' ||
  c = '\x1d' || c = '\x1e' || c = '\x85'

/-- Worker for `pySplitlines`: `acc` is the reversed current line. -/
def pySplitlinesGo : List Char → List Char → List String
  | [], acc => if acc.isEmpty then [] else [⟨acc.reverse⟩]
  | '\r' :: '\n' :: tl, acc => ⟨acc.reverse⟩ :: pySplitlinesGo tl []
  | c :: tl, acc =>
    if isLineBreak c then ⟨acc.reverse⟩ :: pySplitlinesGo tl []
    else pySplitlinesGo tl (c :: acc)

/-- Python `str.splitlines()`: splits on line terminators, produces no
trailing empty line for a trailing terminator. -/
def pySplitlines (s : String) : List String :=
  pySplitlinesGo s.data []

/-- Models `remove_whitespace` (src/parse.py): `line.replace('\n', '').replace(' ', '')`.
Replacing a single character by the empty string removes every occurrence
of that character, i.e. filters it out. -/
def remove_whitespace (line : String) : String :=
  ⟨(line.data.filter (fun c => c ≠ '\n')).filter (fun c => c ≠ ' ')⟩

/-- Python `line.replace(" ", "")` used by `_format_code` (src/patch.py). -/
def removeSpaces (line : String) : String :=
  ⟨line.data.filter (fun c => c ≠ ' ')⟩

/-- Models `line1.split("//")[0]`: the prefix of the string before the first
occurrence of `//` (the whole string when `//` does not occur). -/
def beforeLineComment (s : String) : String :=
  ⟨beforeSlashes s.data⟩
where
  beforeSlashes : List Char → List Char
    | [] => []
    | '/' :: '/' :: _ => []
    | c :: tl => c :: beforeSlashes tl

/-- Models `two_lines_match` (src/parse.py): comment-and-whitespace-insensitive
line equality.  Empty (falsy) lines never match; two full-line comments
are compared literally after whitespace removal; otherwise trailing line
comments are stripped before the whitespace-insensitive comparison. -/
def two_lines_match (line1 line2 : String) : Bool :=
  if line1 = "" || line2 = "" then false
  else
    let s1 := pyStrip line1
    let s2 := pyStrip line2
    if s1 = "" || s2 = "" then false
    else if pyStartsWith s1 "//" && pyStartsWith s2 "//" then
      remove_whitespace s1 ≠ "" && remove_whitespace s2 ≠ "" &&
        remove_whitespace s1 = remove_whitespace s2
    else
      let l1 := remove_whitespace (beforeLineComment line1)
      let l2 := remove_whitespace (beforeLineComment line2)
      l1 ≠ "" && l2 ≠ "" && l1 = l2

/-- Models `exist_line` (src/parse.py): membership of `line` in `mylst` up to
`two_lines_match`; a `None` list accepts everything. -/
def exist_line (line : String) (mylst : Option (List String)) : Bool :=
  match mylst with
  | none => true
  | some l => l.any (fun x => two_lines_match x line)

/-- Models `is_valid_line` (src/parse.py): non-blank, longer than `length` after
whitespace removal, not starting with `+`, and free of the `missing` /
`buggy` annotation tokens. -/
def is_valid_line (line : String) (length : Nat) : Bool :=
  if (remove_whitespace line).length ≤ length then false
  else
    let s := pyStrip line
    if s = "" then false
    else if s.data.head? = some '+' then false
    else if pyContains line "missing" || pyContains line "buggy" then false
    else true

/-- Worker loop of `search_valid_line`; `fuel` bounds the walk, which in
the source terminates because `cur` moves monotonically out of range. -/
def searchValidGo (lines : List String) (existing : Option (List String))
    (incre : Int) : Nat → Int → Int → Option (Int × String)
  | 0, _, _ => none
  | fuel + 1, cur, degree =>
    if 0 ≤ cur ∧ cur < (lines.length : Int) then
      let l := lines.getD cur.toNat ""
      if is_valid_line l 0 && exist_line l existing then
        if degree - 1 = 0 then some (cur, l)
        else searchValidGo lines existing incre fuel (cur + incre) (degree - 1)
      else searchValidGo lines existing incre fuel (cur + incre) degree
    else none

/-- Models `search_valid_line` (src/parse.py): from `start_idx`, walk backwards
(`mode = "pre"`) or forwards (otherwise) to the `degree`-th valid line
that also occurs in `existing` (when supplied). -/
def search_valid_line (lines : List String) (start_idx : Int) (mode : String)
    (degree : Int) (existing : Option (List String)) : Option (Int × String) :=
  let incre : Int := if mode = "pre" then -1 else 1
  searchValidGo lines existing incre (lines.length + 1) (start_idx + incre) degree

/-- Worker for `matching_lines`, carrying the running index. -/
def matchingLinesGo (aim : String) (stopAtFirst : Bool) :
    Nat → List String → List Nat
  | _, [] => []
  | idx, cl :: tl =>
    if two_lines_match aim cl then
      if stopAtFirst then [idx] else idx :: matchingLinesGo aim stopAtFirst (idx + 1) tl
    else matchingLinesGo aim stopAtFirst (idx + 1) tl

/-- Models `matching_lines` (src/parse.py): indices of all code lines matching
`aim_line` (`None` matches nothing). -/
def matching_lines (aim_line : Option String) (code_lines : List String)
    (stop_at_first_match : Bool) : List Nat :=
  match aim_line with
  | none => []
  | some a => matchingLinesGo a stop_at_first_match 0 code_lines

/-- Models `matching_with_comments` (src/parse.py): the candidates whose full
whitespace-normalised text equals the target's (comments included). -/
def matching_with_comments (aim_line : String) (matched : List Nat)
    (code_lines : List String) : List Nat :=
  matched.filter (fun m => remove_whitespace aim_line = remove_whitespace (code_lines.getD m ""))

/-- One `degree` iteration body plus recursion of `matching_neighbor`'s
loop; `fuel` counts the remaining degrees up to `degree_limit`. -/
def matchingNeighborGo (aim_codes : List String) (aim_idx : Int)
    (raw_codes : List String) (existing_pool : Option (List String)) :
    Nat → Int → List Nat → List Nat → List Nat
  | 0, _, _, _ => []
  | fuel + 1, degree, pre_now, post_now =>
    let aim_pre := search_valid_line aim_codes aim_idx "pre" degree existing_pool
    let aim_post := search_valid_line aim_codes aim_idx "post" degree existing_pool
    let pre_also :=
      match aim_pre with
      | none => []
      | some ap =>
        pre_now.filter (fun mi =>
          match search_valid_line raw_codes mi "pre" degree none with
          | some pm => two_lines_match ap.2 pm.2
          | none => false)
    if aim_pre.isSome ∧ pre_also.length = 1 then pre_also
    else
      let post_also :=
        match aim_post with
        | none => []
        | some ap =>
          post_now.filter (fun mi =>
            match search_valid_line raw_codes mi "post" degree none with
            | some pm => two_lines_match ap.2 pm.2
            | none => false)
      if aim_post.isSome ∧ post_also.length = 1 then post_also
      else
        let inter := pre_also.filter (fun x => post_also.contains x)
        if pre_also ≠ [] ∧ post_also ≠ [] ∧ inter.length = 1 then inter
        else if pre_also = [] ∧ post_also = [] then []
        else matchingNeighborGo aim_codes aim_idx raw_codes existing_pool
          fuel (degree + 1) pre_also post_also

/-- Models `matching_neighbor` (src/parse.py): disambiguate `matched` candidates
by comparing valid neighbour lines at increasing degree, up to
`degree_limit`; exhaustion yields `[]`. -/
def matching_neighbor (aim_codes : List String) (aim_idx : Int)
    (raw_codes : List String) (matched : List Nat) (existing : Bool)
    (degree_limit : Nat) : List Nat :=
  let existing_pool := if existing then some raw_codes else none
  matchingNeighborGo aim_codes aim_idx raw_codes existing_pool
    degree_limit 1 matched matched

/-- Python `resp_lines[resp_cur_idx]` for the in-range indices used by
every caller (Python raises `IndexError` out of range). -/
def pyGetStrD (l : List String) (i : Int) (d : String) : String :=
  if 0 ≤ i then l.getD i.toNat d
  else if 0 ≤ (l.length : Int) + i then l.getD ((l.length : Int) + i).toNat d
  else d

/-- Models `unique_matching` (src/parse.py): locate one response line uniquely in
the code; a unique exact match is returned directly, zero matches give
`-2`, and several matches are passed to `matching_neighbor`, whose unique
answer is returned when it exists, `-1` otherwise. -/
def unique_matching (resp_lines code_lines : List String) (resp_cur_idx : Int)
    (resp_cur_line : Option String) (existing : Bool) : Int :=
  let target :=
    match resp_cur_line with
    | none => pyGetStrD resp_lines resp_cur_idx ""
    | some l => l
  let matched := matching_lines (some target) code_lines false
  if matched.length = 1 then (matched.getD 0 0 : Nat)
  else if matched.length = 0 then -2
  else
    let neighbor := matching_neighbor resp_lines resp_cur_idx code_lines matched existing 5
    if neighbor.length = 1 then (neighbor.getD 0 0 : Nat)
    else -1

/-- Characters of the class `[\s\d\+\-\,]` in `_format_patch_lines`'s
pattern (src/patch.py). -/
def inHunkClass (c : Char) : Bool :=
  isPySpace c || c.isDigit || c = '+' || c = '-' || c = ','

/-- One anchored attempt to match `(@@[\s\d\+\-\,]+@@)(\s+[^\n]+)` at the
head of `cs`.  On success, returns the text standing for the match under
the replacement `\1\n\2` together with the remaining characters.  The
character class of group 1 excludes `@`, so its greedy one-or-more run is
exactly the maximal run; `\s+` backtracks only when `[^\n]+` would
otherwise be left without a non-newline character. -/
def trySubMatch : List Char → Option (List Char × List Char)
  | '@' :: '@' :: t1 =>
    let r := t1.takeWhile inHunkClass
    let t2 := t1.dropWhile inHunkClass
    if r.isEmpty then none
    else
      match t2 with
      | '@' :: '@' :: t3 =>
        let w := t3.takeWhile isPySpace
        let t4 := t3.dropWhile isPySpace
        if w.isEmpty then none
        else
          let g1 := '@' :: '@' :: r ++ ['@', '@']
          if t4.isEmpty then
            -- `[^\n]+` must consume inside the whitespace run: drop the
            -- trailing newlines, keep at least one char for `\s+`.
            let ns := (w.reverse.takeWhile (fun c => c = '\n')).reverse
            let b := (w.reverse.dropWhile (fun c => c = '\n')).reverse
            if b.length ≥ 2 then some (g1 ++ '\n' :: b, ns) else none
          else
            let content := t4.takeWhile (fun c => c ≠ '\n')
            some (g1 ++ '\n' :: (w ++ content), t4.dropWhile (fun c => c ≠ '\n'))
      | _ => none
  | _ => none

/-- The scan of `re.sub`: at each position try the pattern; on a match,
emit the replacement and continue after the match.  `fuel` bounds the
scan (every step consumes at least one character). -/
def subScan : Nat → List Char → List Char
  | 0, cs => cs
  | fuel + 1, cs =>
    match trySubMatch cs with
    | some (rep, rest) => rep ++ subScan fuel rest
    | none =>
      match cs with
      | [] => []
      | c :: tl => c :: subScan fuel tl

/-- Models `_format_patch_lines` (src/patch.py):
`re.sub(r'(@@[\s\d\+\-\,]+@@)(\s+[^\n]+)', r'\1\n\2', patch).splitlines()`
— split a hunk header from the code that follows it on the same line,
then split the patch into lines. -/
def formatPatchLines (patch : String) : List String :=
  pySplitlines ⟨subScan (patch.data.length + 1) patch.data⟩

/-- Models `re.match(r'^@@\s-\d+,\d+\s\+\d+,\d+\s@@.*', s)` as a Boolean:
a unified-diff hunk header at the start of the string. -/
def matchesHunkHeader (s : String) : Bool :=
  match s.data with
  | '@' :: '@' :: c :: t1 =>
    if isPySpace c then
      match t1 with
      | '-' :: t2 => matchesPair t2 (fun t3 =>
          match t3 with
          | '+' :: t4 => matchesPair t4 (fun t5 =>
              match t5 with
              | '@' :: '@' :: _ => true
              | _ => false)
          | _ => false)
      | _ => false
    else false
  | _ => false
where
  /-- consume `\d+,\d+\s` then hand the rest to the continuation -/
  matchesPair (cs : List Char) (k : List Char → Bool) : Bool :=
    let d1 := cs.takeWhile Char.isDigit
    let r1 := cs.dropWhile Char.isDigit
    if d1.isEmpty then false
    else
      match r1 with
      | ',' :: r2 =>
        let d2 := r2.takeWhile Char.isDigit
        let r3 := r2.dropWhile Char.isDigit
        if d2.isEmpty then false
        else
          match r3 with
          | c :: r4 => if isPySpace c then k r4 else false
          | [] => false
      | _ => false

/-- Models `re.search(r'^[s](\s|\t)+.*$', line)` as a Boolean, for a sign
character `s` (`-` or `+`): the sign, at least one whitespace character,
then an arbitrary newline-free tail (`$` also accepts one trailing
newline). -/
def matchesSignedChar (sign : Char) (line : String) : Bool :=
  match line.data with
  | c0 :: c1 :: rest =>
    c0 = sign && isPySpace c1 &&
      (((c1 :: rest).dropWhile isPySpace).dropLast.all (fun c => c ≠ '\n'))
  | _ => false

/-- Models `_is_a_patch` (src/patch.py): the formatted lines must contain a hunk
header and a signed (`+`/`-`) content line, both tested on the stripped
line. -/
def is_a_patch (patch_lines : List String) : Bool :=
  patch_lines.any (fun ln => matchesHunkHeader (pyStrip ln)) &&
    patch_lines.any (fun ln =>
      matchesSignedChar '-' (pyStrip ln) || matchesSignedChar '+' (pyStrip ln))

/-- Models `re.search(r'[A-Za-z0-9]$', line)`: an ASCII alphanumeric character at
the end of the string (or just before one trailing newline). -/
def alnumAtEnd (line : String) : Bool :=
  match line.data.reverse with
  | [] => false
  | c :: tl =>
    if c = '\n' then
      match tl with
      | [] => false
      | c2 :: _ => c2.isAlpha || c2.isDigit
    else c.isAlpha || c.isDigit

/-- One iteration of `_format_code`'s loop (src/patch.py): `orig` is the
snapshot `list(out)` taken when the loop starts, `out` the mutated list.
A lone visibility modifier is merged into the following line; otherwise a
line that is no class/type declaration, no comment, and ends in an
alphanumeric character is concatenated with the next line. -/
def formatCodeStep (orig : List String) (out : List String) (i : Nat) :
    List String :=
  let line := orig.getD i ""
  match ["public", "private", "protected"].find? (fun k => removeSpaces line = k) with
  | some k =>
    let out := out.set i ""
    if i + 1 < out.length then
      out.set (i + 1) (k ++ " " ++ pyLstrip (out.getD (i + 1) ""))
    else out
  | none =>
    if i + 1 < out.length && !(pyContains line "class") &&
        !(pyStartsWith (pyStrip line) "*") &&
        !(pyContains line "//") && !(pyContains line "/*") &&
        alnumAtEnd line then
      let out := out.set i (pyRstrip line ++ " " ++ pyLstrip (out.getD (i + 1) ""))
      out.set (i + 1) ""
    else out

/-- Models `_format_code` (src/patch.py): light line-level normalisation of the
source before patching.  `out = list(code_lines)` starts as a copy, and
the loop variable `line` always comes from the snapshot `list(out)` taken
before the first iteration, i.e. from `code_lines` itself. -/
def formatCode (code_lines : List String) : List String :=
  (List.range code_lines.length).foldl (formatCodeStep code_lines) code_lines

/-- Models `_find_a_matched_line` (src/patch.py): exact matches (past `lag` when
`lag ≥ 0`), then the full-text tie-break, then `unique_matching`. -/
def findAMatchedLine (pidx : Int) (pline : String) (code_lines : List String)
    (patch_lines : List String) (lag : Int) (existing : Bool) : Int :=
  let matched := matching_lines (some pline) code_lines false
  let matched := if 0 ≤ lag then matched.filter (fun m => lag < Int.ofNat m) else matched
  if matched.length = 1 then (matched.getD 0 0 : Nat)
  else
    let perfect := matching_with_comments pline matched code_lines
    if perfect.length = 1 then (perfect.getD 0 0 : Nat)
    else unique_matching patch_lines code_lines pidx (some pline) existing

/-- A Patched Line Slot: Python keeps a `str` or a (possibly nested) list
in each cell of `patched`. -/
inductive Cell where
  | s (v : String)
  | l (elems : List Cell)

/-- The failure signals of `patching` (src/patch.py): `NoCodeError`
("Not a patch"), `NotPatchError` ("No lines applied from the patch"),
and the Python runtime errors the mutation pass can raise. -/
inductive PErr where
  | notAPatch
  | noOp
  | indexError
  | typeError
deriving DecidableEq

/-- Python list read `l[i]` (negative indices wrap; out of range raises
`IndexError`). -/
def pyGetCell (l : List Cell) (i : Int) : Except PErr Cell :=
  if 0 ≤ i then
    if i.toNat < l.length then .ok (l.getD i.toNat (.s "")) else .error .indexError
  else
    let j := (l.length : Int) + i
    if 0 ≤ j then .ok (l.getD j.toNat (.s "")) else .error .indexError

/-- Python list write `l[i] = v` (negative indices wrap; out of range
raises `IndexError`). -/
def pySetCell (l : List Cell) (i : Int) (v : Cell) : Except PErr (List Cell) :=
  if 0 ≤ i then
    if i.toNat < l.length then .ok (l.set i.toNat v) else .error .indexError
  else
    let j := (l.length : Int) + i
    if 0 ≤ j then .ok (l.set j.toNat v) else .error .indexError

/-- Python `cell += x` for a string `x`: string concatenation on a `str`
cell; on a `list` cell, `list += str` extends the list with the single
characters of `x`. -/
def cellIAdd (c : Cell) (x : String) : Cell :=
  match c with
  | .s s => .s (s ++ x)
  | .l xs => .l (xs ++ x.data.map (fun ch => Cell.s ⟨[ch]⟩))

/-- The running state of `patching`'s pass over the patch lines. -/
structure PState where
  patched : List Cell
  unpatched : List (Nat × String)
  to_patch : Nat
  replace_idx : Int
  prev_patch_idx : Int

/-- Initial state of the pass: `patched = list(code_lines)`,
`unpatched = []`, `to_patch = 0`, `replace_idx, prev_patch_idx = -1, -1`. -/
def initPState (code_lines : List String) : PState :=
  { patched := code_lines.map Cell.s
    unpatched := []
    to_patch := 0
    replace_idx := -1
    prev_patch_idx := -1 }

/-- One iteration of `patching`'s loop body (src/patch.py) on the
enumerated patch line `(pidx, pline)`. -/
def patch_step (code_lines patch_lines : List String) (st : PState)
    (pe : Nat × String) : Except PErr PState :=
  let pidx := pe.1
  let pline := pe.2
  if matchesSignedChar '-' pline then
    -- removal
    let st := { st with to_patch := st.to_patch + 1 }
    if (0 : Int) ≤ st.prev_patch_idx ∧ st.prev_patch_idx + 1 = (pidx : Int) ∧
        pyStartsWith (patch_lines.getD st.prev_patch_idx.toNat "") "-" = true then
      -- run of consecutive removed lines
      do
        let patched ←
          if st.replace_idx + 1 < (st.patched.length : Int) then
            pySetCell st.patched (st.replace_idx + 1) (.s "")
          else pure st.patched
        pure { st with patched := patched, replace_idx := st.replace_idx + 1,
                       prev_patch_idx := (pidx : Int) }
    else
      let match_idx := findAMatchedLine pidx (pyLstrip (strTail pline))
        code_lines patch_lines st.replace_idx true
      if 0 ≤ match_idx then do
        let patched ← pySetCell st.patched match_idx (.s "")
        pure { st with patched := patched, replace_idx := match_idx,
                       prev_patch_idx := (pidx : Int) }
      else
        pure { st with unpatched := st.unpatched ++ [(pidx, pline)] }
  else if matchesSignedChar '+' pline then
    -- addition
    let st := { st with to_patch := st.to_patch + 1 }
    if (0 : Int) ≤ st.prev_patch_idx ∧ st.prev_patch_idx + 1 = (pidx : Int) then
      -- replacement pair or run of consecutive added lines
      let prevLine := patch_lines.getD st.prev_patch_idx.toNat ""
      if pyStartsWith prevLine "-" then do
        let patched ← pySetCell st.patched st.replace_idx
          (.s (pyRstrip (strTail pline)))
        pure { st with patched := patched, prev_patch_idx := (pidx : Int) }
      else if pyStartsWith prevLine "+" then do
        let cell ← pyGetCell st.patched st.replace_idx
        let newCell ←
          match cell with
          | Cell.s s => pure (Cell.s (s ++ "\n" ++ pyRstrip (strTail pline)))
          | Cell.l xs =>
            match xs.getLast? with
            | some last =>
              pure (Cell.l (xs.dropLast ++ [Cell.s (pyRstrip (strTail pline)), last]))
            | none => Except.error PErr.indexError
        let patched ← pySetCell st.patched st.replace_idx newCell
        pure { st with patched := patched, prev_patch_idx := (pidx : Int) }
      else
        pure { st with prev_patch_idx := (pidx : Int) }
    else
      -- standalone insertion anchored to a neighbouring valid patch line
      let preRes :=
        match search_valid_line patch_lines pidx "pre" 1 none with
        | some pv =>
          let u := findAMatchedLine pv.1 pv.2 code_lines patch_lines st.replace_idx false
          if 0 ≤ u then some u else none
        | none => none
      match preRes with
      | some uidx => do
        let cell ← pyGetCell st.patched uidx
        let patched ← pySetCell st.patched uidx
          (cellIAdd cell ("\n" ++ pyRstrip (strTail pline)))
        pure { st with patched := patched, replace_idx := uidx,
                       prev_patch_idx := (pidx : Int) }
      | none =>
        let postRes :=
          match search_valid_line patch_lines pidx "post" 1 (some code_lines) with
          | some pv =>
            let u := findAMatchedLine pv.1 pv.2 code_lines patch_lines st.replace_idx false
            if 0 ≤ u then some u else none
          | none => none
        match postRes with
        | some uidx => do
          let cell ← pyGetCell st.patched uidx
          let patched ← pySetCell st.patched uidx
            (.l [Cell.s (pyRstrip (strTail pline)), cell])
          pure { st with patched := patched, replace_idx := uidx,
                         prev_patch_idx := (pidx : Int) }
        | none =>
          pure { st with unpatched := st.unpatched ++ [(pidx, pline)] }
  else
    -- context lines, hunk headers and blank lines mutate nothing
    pure st

/-- The whole pass of `patching` over the enumerated patch lines. -/
def patching_loop (code_lines patch_lines : List String) (st : PState)
    (entries : List (Nat × String)) : Except PErr PState :=
  entries.foldlM (patch_step code_lines patch_lines) st

/-- Python truthiness of a slot: the empty string and the empty list are
falsy and skipped by the reconstruction. -/
def cellFalsy (c : Cell) : Bool :=
  match c with
  | .s v => v = ""
  | .l xs => xs.isEmpty

/-- The elements a `list` slot contributes to `res`; a nested list makes
the final `"\n".join(res)` raise `TypeError`. -/
def cellListStrs : List Cell → Except PErr (List String)
  | [] => .ok []
  | Cell.s v :: tl => do
    let r ← cellListStrs tl
    pure (v :: r)
  | Cell.l _ :: _ => .error .typeError

/-- The `res` list built by `patching`'s reconstruction loop. -/
def collectRes : List Cell → Except PErr (List String)
  | [] => .ok []
  | c :: tl =>
    if cellFalsy c then collectRes tl
    else
      match c with
      | Cell.s v => do
        let r ← collectRes tl
        pure (v :: r)
      | Cell.l xs => do
        let strs ← cellListStrs xs
        let r ← collectRes tl
        pure (strs ++ r)

/-- Python `"\n".join(res)`. -/
def joinNl : List String → String
  | [] => ""
  | [x] => x
  | x :: xs => x ++ "\n" ++ joinNl xs

/-- Final text reconstruction of `patching`: skip falsy slots, emit string
slots, splice list slots, join with newlines and strip. -/
def reconstruct (cells : List Cell) : Except PErr String := do
  let res ← collectRes cells
  pure (pyStrip (joinNl res))

/-- Models `patching` (src/patch.py): apply a unified-diff-style patch text to
the source lines.  `NoCodeError` (here `.notAPatch`) rejects text without
patch structure; `NotPatchError` (here `.noOp`) reports that no signed
line was applied; the mutation pass itself can also raise. -/
def patching (patch : String) (raw_code_lines : List String) :
    Except PErr String :=
  let patch_lines := formatPatchLines patch
  if !(is_a_patch patch_lines) then .error .notAPatch
  else
    let code_lines := formatCode raw_code_lines
    match patching_loop code_lines patch_lines (initPState code_lines)
        patch_lines.enum with
    | .error e => .error e
    | .ok st =>
      if st.unpatched.length = st.to_patch then .error .noOp
      else reconstruct st.patched

/-!
Store-based rendering of `patching` for the input-immutability claim.
Python mutates lists in place, so aliasing matters for the frame
property: the caller's `raw_code_lines` is a heap object, `out` in
`_format_code` is the fresh copy `list(code_lines)`, and `patched` is the
fresh copy `list(code_lines)` of the formatted code.  The heap is a list
of Python list objects addressed by allocation index; every in-place
element write of the source becomes an explicit store write.  The pure
reading helpers (`matching_lines`, `search_valid_line`, ...) only read
their arguments in the source, and nothing writes the formatted-code
object after `_format_code` returns, so they take the list values read
from the store.
-/

/-- A Python list object held in the store: the engine only ever stores
lists of strings (`raw_code_lines`, `out`) and the heterogeneous
`patched` list. -/
inductive PyList where
  | strs (l : List String)
  | cells (l : List Cell)

/-- The heap: list objects addressed by allocation index. -/
abbrev Store := List PyList

/-- Read a list-of-strings object. -/
def readStrs (s : Store) (r : Nat) : List String :=
  match s.getD r (.strs []) with
  | .strs l => l
  | .cells _ => []

/-- Read the `patched` object. -/
def readCells (s : Store) (r : Nat) : List Cell :=
  match s.getD r (.strs []) with
  | .cells l => l
  | .strs _ => []

/-- Replace the object at address `r`. -/
def writeAt (s : Store) (r : Nat) (v : PyList) : Store :=
  s.set r v

/-- In-place element write `obj[i] = v` on a list-of-strings object. -/
def writeStrAt (s : Store) (r : Nat) (i : Nat) (v : String) : Store :=
  writeAt s r (.strs ((readStrs s r).set i v))

/-- In-place element write `patched[i] = v` (Python index semantics). -/
def storeSetCell (s : Store) (r : Nat) (i : Int) (v : Cell) :
    Except PErr Store := do
  let l ← pySetCell (readCells s r) i v
  pure (writeAt s r (.cells l))

/-- Models `patched[i]` read from the store. -/
def storeGetCell (s : Store) (r : Nat) (i : Int) : Except PErr Cell :=
  pyGetCell (readCells s r) i

/-- One iteration of `_format_code`'s loop as store writes on the object
at `r`; `orig` is the snapshot `list(out)` taken before the loop. -/
def formatCodeStepStore (orig : List String) (r : Nat) (s : Store) (i : Nat) :
    Store :=
  let line := orig.getD i ""
  match ["public", "private", "protected"].find? (fun k => removeSpaces line = k) with
  | some k =>
    let s := writeStrAt s r i ""
    if i + 1 < (readStrs s r).length then
      writeStrAt s r (i + 1) (k ++ " " ++ pyLstrip ((readStrs s r).getD (i + 1) ""))
    else s
  | none =>
    if i + 1 < (readStrs s r).length && !(pyContains line "class") &&
        !(pyStartsWith (pyStrip line) "*") &&
        !(pyContains line "//") && !(pyContains line "/*") &&
        alnumAtEnd line then
      let s := writeStrAt s r i (pyRstrip line ++ " " ++ pyLstrip ((readStrs s r).getD (i + 1) ""))
      writeStrAt s r (i + 1) ""
    else s

/-- Models `_format_code` acting in place on the fresh copy at address `r`. -/
def formatCodeStore (s : Store) (r : Nat) : Store :=
  (List.range (readStrs s r).length).foldl (formatCodeStepStore (readStrs s r) r) s

/-- The loop state of `patching` without the `patched` list, which lives
in the store. -/
structure SState where
  unpatched : List (Nat × String)
  to_patch : Nat
  replace_idx : Int
  prev_patch_idx : Int

/-- Initial loop state. -/
def initSState : SState :=
  { unpatched := [], to_patch := 0, replace_idx := -1, prev_patch_idx := -1 }

/-- One iteration of `patching`'s loop with the `patched` writes going
through the store object at `r2`; mirrors `patch_step`. -/
def patch_step_store (code_lines patch_lines : List String) (r2 : Nat)
    (store : Store) (st : SState) (pe : Nat × String) :
    Except PErr (Store × SState) :=
  let pidx := pe.1
  let pline := pe.2
  if matchesSignedChar '-' pline then
    let st := { st with to_patch := st.to_patch + 1 }
    if (0 : Int) ≤ st.prev_patch_idx ∧ st.prev_patch_idx + 1 = (pidx : Int) ∧
        pyStartsWith (patch_lines.getD st.prev_patch_idx.toNat "") "-" = true then
      do
        let store ←
          if st.replace_idx + 1 < ((readCells store r2).length : Int) then
            storeSetCell store r2 (st.replace_idx + 1) (.s "")
          else pure store
        pure (store, { st with replace_idx := st.replace_idx + 1,
                               prev_patch_idx := (pidx : Int) })
    else
      let match_idx := findAMatchedLine pidx (pyLstrip (strTail pline))
        code_lines patch_lines st.replace_idx true
      if 0 ≤ match_idx then do
        let store ← storeSetCell store r2 match_idx (.s "")
        pure (store, { st with replace_idx := match_idx,
                               prev_patch_idx := (pidx : Int) })
      else
        pure (store, { st with unpatched := st.unpatched ++ [(pidx, pline)] })
  else if matchesSignedChar '+' pline then
    let st := { st with to_patch := st.to_patch + 1 }
    if (0 : Int) ≤ st.prev_patch_idx ∧ st.prev_patch_idx + 1 = (pidx : Int) then
      let prevLine := patch_lines.getD st.prev_patch_idx.toNat ""
      if pyStartsWith prevLine "-" then do
        let store ← storeSetCell store r2 st.replace_idx
          (.s (pyRstrip (strTail pline)))
        pure (store, { st with prev_patch_idx := (pidx : Int) })
      else if pyStartsWith prevLine "+" then do
        let cell ← storeGetCell store r2 st.replace_idx
        let newCell ←
          match cell with
          | Cell.s s => pure (Cell.s (s ++ "\n" ++ pyRstrip (strTail pline)))
          | Cell.l xs =>
            match xs.getLast? with
            | some last =>
              pure (Cell.l (xs.dropLast ++ [Cell.s (pyRstrip (strTail pline)), last]))
            | none => Except.error PErr.indexError
        let store ← storeSetCell store r2 st.replace_idx newCell
        pure (store, { st with prev_patch_idx := (pidx : Int) })
      else
        pure (store, { st with prev_patch_idx := (pidx : Int) })
    else
      let preRes :=
        match search_valid_line patch_lines pidx "pre" 1 none with
        | some pv =>
          let u := findAMatchedLine pv.1 pv.2 code_lines patch_lines st.replace_idx false
          if 0 ≤ u then some u else none
        | none => none
      match preRes with
      | some uidx => do
        let cell ← storeGetCell store r2 uidx
        let store ← storeSetCell store r2 uidx
          (cellIAdd cell ("\n" ++ pyRstrip (strTail pline)))
        pure (store, { st with replace_idx := uidx, prev_patch_idx := (pidx : Int) })
      | none =>
        let postRes :=
          match search_valid_line patch_lines pidx "post" 1 (some code_lines) with
          | some pv =>
            let u := findAMatchedLine pv.1 pv.2 code_lines patch_lines st.replace_idx false
            if 0 ≤ u then some u else none
          | none => none
        match postRes with
        | some uidx => do
          let cell ← storeGetCell store r2 uidx
          let store ← storeSetCell store r2 uidx
            (.l [Cell.s (pyRstrip (strTail pline)), cell])
          pure (store, { st with replace_idx := uidx, prev_patch_idx := (pidx : Int) })
        | none =>
          pure (store, { st with unpatched := st.unpatched ++ [(pidx, pline)] })
  else
    pure (store, st)

/-- The pass of `patching` over the patch lines, store-threaded; a raised
exception leaves the store as it was at the raise. -/
def patching_loop_store (code_lines patch_lines : List String) (r2 : Nat) :
    Store → SState → List (Nat × String) → Store × Except PErr SState
  | store, st, [] => (store, .ok st)
  | store, st, pe :: tl =>
    match patch_step_store code_lines patch_lines r2 store st pe with
    | .ok (store2, st2) => patching_loop_store code_lines patch_lines r2 store2 st2 tl
    | .error e => (store, .error e)

/-- Models `patching` with the caller's `raw_code_lines` held in the store at
address `r0`: `_format_code` copies it to a fresh object (`out`) and
mutates only that copy; the pass mutates only the fresh `patched` copy.
Returns the result together with the final heap. -/
def storePatching (store : Store) (r0 : Nat) (patch : String) :
    Except PErr String × Store :=
  let patch_lines := formatPatchLines patch
  if !(is_a_patch patch_lines) then (.error .notAPatch, store)
  else
    -- out = list(code_lines): allocate a copy of the caller's list
    let r1 := store.length
    let store1 := store ++ [.strs (readStrs store r0)]
    let store2 := formatCodeStore store1 r1
    let code_lines := readStrs store2 r1
    -- patched = list(code_lines): allocate a second fresh copy
    let r2 := store2.length
    let store3 := store2 ++ [.cells (code_lines.map Cell.s)]
    match patching_loop_store code_lines patch_lines r2 store3 initSState
        patch_lines.enum with
    | (storeF, .error e) => (.error e, storeF)
    | (storeF, .ok st) =>
      if st.unpatched.length = st.to_patch then (.error .noOp, storeF)
      else (reconstruct (readCells storeF r2), storeF)

/-! ### Shared lemmas -/

theorem mem_remove_whitespace {line : String} {c : Char}
    (h : c ∈ (remove_whitespace line).data) : c ≠ '\n' ∧ c ≠ ' ' := by
  simp only [remove_whitespace, List.mem_filter, decide_eq_true_eq] at h
  exact ⟨h.1.2, h.2⟩

/-! ### C9 — normalisation -/

/-- C9 counterexample: the claim says the normalised form contains no
whitespace characters of any kind, but `remove_whitespace` only deletes
`'\n'` and `' '`: the single tab survives normalisation unchanged and is
whitespace. -/
theorem remove_whitespace_keeps_tab_cex :
    remove_whitespace "\t" = "\t" ∧ '\t' ∈ (remove_whitespace "\t").data ∧
      isPySpace '\t' = true := by
  refine ⟨rfl, ?_, rfl⟩
  decide

/-- C9 (amended): for every input line the normalised form produced by
`remove_whitespace` contains no space characters and no newline
characters (other whitespace, such as tabs, is preserved). -/
theorem remove_whitespace_no_space_no_newline (line : String) :
    ' ' ∉ (remove_whitespace line).data ∧ '\n' ∉ (remove_whitespace line).data := by
  constructor
  · intro h
    exact (mem_remove_whitespace h).2 rfl
  · intro h
    exact (mem_remove_whitespace h).1 rfl

/-! ### C7 — neighbour disambiguation on the spec's example -/

/-- C7: for source `["x","dup","y","dup","z"]` and the fragment line
`"dup"` whose valid neighbour before is `"y"` and after is `"z"`, the
resolver returns the index of the second `"dup"` (index 3), not the
first. -/
theorem neighbor_disambiguation_second_dup :
    unique_matching ["y", "dup", "z"] ["x", "dup", "y", "dup", "z"] 1 none false = 3 ∧
      matching_lines (some "dup") ["x", "dup", "y", "dup", "z"] false = [1, 3] := by
  exact ⟨rfl, rfl⟩

/-! ### C6 — deletion correctness -/

/-- C6 counterexample: for source `["a","b","c"]` and the structurally
valid patch whose only signed entry removes the (unique) line `"b"`,
`patching` does not return `"a\nc"`: the `_format_code` pre-pass merges
the alphanumeric-ending lines into `["a b","b c",""]`, `"b"` no longer
matches anywhere, and the run fails with the No-Op error. -/
theorem deletion_correctness_cex :
    patching "@@ -1,3 +1,2 @@\n- b" ["a", "b", "c"] = .error .noOp ∧
      (Except.error PErr.noOp : Except PErr String) ≠ .ok "a\nc" := by
  refine ⟨rfl, ?_⟩
  intro h
  exact Except.noConfusion h

/-- C6 (amended): the deletion test only holds for sources that the
`_format_code` line-merge pre-pass leaves intact.  On `["a","b","c"]` the
pre-pass merges the lines and the patch fails with No-Op; on the
unmerged source `["a;","b;","c;"]`, removing the unique line `"b;"`
reconstructs exactly `"a;\nc;"`. -/
theorem deletion_correctness_amended :
    formatCode ["a", "b", "c"] = ["a b", "b c", ""] ∧
      patching "@@ -1,3 +1,2 @@\n- b" ["a", "b", "c"] = .error .noOp ∧
      patching "@@ -1,3 +1,2 @@\n- b;" ["a;", "b;", "c;"] = .ok "a;\nc;" := by
  exact ⟨rfl, rfl, rfl⟩

/-! ### C4 — totality of the engine's interface -/

/-- C4: the claim states that `patching` either returns a string or
raises one of the defined failure signals, and in particular that no
out-of-range slot index can occur during a run of consecutive
removed/added lines.  The code contradicts this: after deleting the last
source line, a second consecutive `-` line advances `replace_idx` past
the end of `patched` (the guard skips the write but still increments),
and the following `+` line executes `patched[replace_idx] = ...` out of
range — Python raises `IndexError`. -/
theorem patching_index_error_on_consecutive_run :
    patching "@@ -1,2 +1,1 @@\n- a\n- b\n+ c" ["a"] = .error .indexError := by
  exact rfl

/-! ### C2 — malformed-patch validation -/

/-- C2 counterexample: the input text consists of the single line
`"@@ -1,1 +1,1 @@ - foo"`, which contains no line matching the signed
content pattern, so the claim demands the Malformed Patch failure.  But
`_format_patch_lines` splits the trailing header content onto its own
line `" - foo"`, whose stripped form is a signed line, so validation
passes and the run instead fails with the No-Op error. -/
theorem malformed_validation_raw_cex :
    pySplitlines "@@ -1,1 +1,1 @@ - foo" = ["@@ -1,1 +1,1 @@ - foo"] ∧
      (matchesSignedChar '-' (pyStrip "@@ -1,1 +1,1 @@ - foo") ||
        matchesSignedChar '+' (pyStrip "@@ -1,1 +1,1 @@ - foo")) = false ∧
      formatPatchLines "@@ -1,1 +1,1 @@ - foo" = ["@@ -1,1 +1,1 @@", " - foo"] ∧
      patching "@@ -1,1 +1,1 @@ - foo" ["x"] = .error .noOp := by
  exact ⟨rfl, rfl, rfl, rfl⟩

/-! ### C1 — the Unique-Match Resolver contract -/

theorem pyGetStrD_natCast (l : List String) (idx : Nat) (d : String) :
    pyGetStrD l (idx : Int) d = l.getD idx d := by
  simp [pyGetStrD]

/-- C1: for every fragment-line list, in-range fragment index and
source-line list, `unique_matching` returns the single matching source
index when `matching_lines` yields exactly one candidate, the NoCandidate
sentinel `-2` when it yields none, and otherwise the result of
`matching_neighbor` when that result is exactly one index, else the
Ambiguous sentinel `-1`. -/
theorem unique_matching_contract (frag code : List String) (idx : Nat)
    (h : idx < frag.length) :
    (∀ i, matching_lines (some (frag.getD idx "")) code false = [i] →
      unique_matching frag code idx none false = i) ∧
    (matching_lines (some (frag.getD idx "")) code false = [] →
      unique_matching frag code idx none false = -2) ∧
    (2 ≤ (matching_lines (some (frag.getD idx "")) code false).length →
      (∀ i, matching_neighbor frag idx code
          (matching_lines (some (frag.getD idx "")) code false) false 5 = [i] →
        unique_matching frag code idx none false = i) ∧
      ((matching_neighbor frag idx code
          (matching_lines (some (frag.getD idx "")) code false) false 5).length ≠ 1 →
        unique_matching frag code idx none false = -1)) := by
  have _ := h
  have key : unique_matching frag code idx none false =
      (let m := matching_lines (some (frag.getD idx "")) code false
       if m.length = 1 then (m.getD 0 0 : Int)
       else if m.length = 0 then -2
       else
         let nb := matching_neighbor frag idx code m false 5
         if nb.length = 1 then (nb.getD 0 0 : Int) else -1) := by
    simp [unique_matching, pyGetStrD_natCast]
  refine ⟨?_, ?_, ?_⟩
  · intro i hi
    rw [key]
    simp only [hi]
    simp
  · intro hi
    rw [key]
    simp only [hi]
    simp
  · intro h2
    have h1 : ¬((matching_lines (some (frag.getD idx "")) code false).length = 1) := by
      omega
    have h0 : ¬((matching_lines (some (frag.getD idx "")) code false).length = 0) := by
      omega
    constructor
    · intro i hi
      rw [key]
      simp only [if_neg h1, if_neg h0, hi]
      simp
    · intro hn
      rw [key]
      simp only [if_neg h1, if_neg h0, if_neg hn]

/-- Witness for C1 at a concrete in-range input: the line `"q"` occurs
exactly once in the source `["q"]`, and the resolver returns index 0. -/
theorem unique_matching_contract_witness :
    unique_matching ["q"] ["q"] 0 none false = 0 :=
  (unique_matching_contract ["q"] ["q"] 0 (by decide)).1 0 (by decide)

/-! ### C5 — slot-array length invariant -/

theorem pySetCell_length {l l' : List Cell} {i : Int} {v : Cell}
    (h : pySetCell l i v = .ok l') : l'.length = l.length := by
  simp only [pySetCell] at h
  repeat' split at h
  all_goals cases h
  all_goals simp

theorem patch_step_patched_length {c p : List String} {st st' : PState}
    {pe : Nat × String} (hstep : patch_step c p st pe = .ok st') :
    st'.patched.length = st.patched.length := by
  unfold patch_step at hstep
  simp only [bind, Except.bind, pure, Except.pure] at hstep
  repeat' split at hstep
  all_goals cases hstep
  all_goals first
    | rfl
    | (exact pySetCell_length (by assumption))

theorem patching_loop_patched_length {c p : List String} {st st' : PState}
    {entries : List (Nat × String)}
    (h : patching_loop c p st entries = .ok st') :
    st'.patched.length = st.patched.length := by
  induction entries generalizing st with
  | nil =>
    unfold patching_loop at h
    simp only [List.foldlM_nil, pure, Except.pure] at h
    cases h
    rfl
  | cons pe tl ih =>
    unfold patching_loop at h ih
    simp only [List.foldlM_cons, bind] at h
    cases hstep : patch_step c p st pe with
    | error e =>
      rw [hstep] at h
      simp only [Except.bind] at h
      cases h
    | ok st1 =>
      rw [hstep] at h
      simp only [Except.bind] at h
      rw [ih h, patch_step_patched_length hstep]

theorem formatCodeStep_length (orig out : List String) (i : Nat) :
    (formatCodeStep orig out i).length = out.length := by
  simp only [formatCodeStep]
  split <;> split_ifs <;> simp

theorem foldl_formatCodeStep_length (orig : List String) :
    ∀ (l : List Nat) (out : List String),
      (l.foldl (formatCodeStep orig) out).length = out.length := by
  intro l
  induction l with
  | nil => intro out; rfl
  | cons i tl ih =>
    intro out
    rw [List.foldl_cons, ih, formatCodeStep_length]

theorem formatCode_length (xs : List String) :
    (formatCode xs).length = xs.length := by
  unfold formatCode
  rw [foldl_formatCodeStep_length]

/-- C5: at every step of the pass — after any prefix of the enumerated
patch lines has been processed successfully — the Patched Line Slot array
has exactly the length of the caller's source-line list: every mutation
rewrites a slot in place and never inserts or removes one. -/
theorem slot_array_length_invariant (patch : String) (src : List String)
    (k : Nat) (st : PState)
    (h : patching_loop (formatCode src) (formatPatchLines patch)
      (initPState (formatCode src)) ((formatPatchLines patch).enum.take k) = .ok st) :
    st.patched.length = src.length := by
  have h1 := patching_loop_patched_length h
  simp only [initPState] at h1
  rw [h1, List.length_map, formatCode_length]

/-- Witness for C5: after the full three-line pass of the deletion patch
on `["a;","b;","c;"]`, the slot array still has three slots. -/
theorem slot_array_length_invariant_witness :
    (PState.mk [Cell.s "a;", Cell.s "", Cell.s "c;"] [] 1 1 2).patched.length = 3 :=
  slot_array_length_invariant "@@ -1,3 +1,2 @@\n- b;" ["a;", "b;", "c;"] 3
    (PState.mk [Cell.s "a;", Cell.s "", Cell.s "c;"] [] 1 1 2) (by rfl)

/-! ### C3 — the completion policy -/

theorem cellListStrs_ne_noOp (xs : List Cell) :
    cellListStrs xs ≠ .error .noOp := by
  induction xs with
  | nil => simp [cellListStrs]
  | cons c tl ih =>
    cases c with
    | s v =>
      simp only [cellListStrs, bind, Except.bind]
      cases h : cellListStrs tl with
      | error e =>
        intro hc
        cases hc
        exact ih h
      | ok r => simp [pure, Except.pure]
    | l es => simp [cellListStrs]

theorem collectRes_ne_noOp (cells : List Cell) :
    collectRes cells ≠ .error .noOp := by
  induction cells with
  | nil => simp [collectRes]
  | cons c tl ih =>
    unfold collectRes
    split_ifs
    · exact ih
    · cases c with
      | s v =>
        simp only [bind, Except.bind]
        cases h : collectRes tl with
        | error e =>
          intro hc
          cases hc
          exact ih h
        | ok r => simp [pure, Except.pure]
      | l es =>
        simp only [bind, Except.bind]
        cases hx : cellListStrs es with
        | error e =>
          intro hc
          cases hc
          exact cellListStrs_ne_noOp es hx
        | ok strs =>
          cases h : collectRes tl with
          | error e =>
            intro hc
            cases hc
            exact ih h
          | ok r => simp [pure, Except.pure]

theorem reconstruct_ne_noOp (cells : List Cell) :
    reconstruct cells ≠ .error .noOp := by
  unfold reconstruct
  simp only [bind, Except.bind]
  cases h : collectRes cells with
  | error e =>
    intro hc
    cases hc
    exact collectRes_ne_noOp cells h
  | ok r => simp [pure, Except.pure]

/-- C3 counterexample: the claim promises that whenever at least one
signed entry applied, the partially-applied text is returned rather than
an error.  Here the first removed line `"- a;"` applies (after the first
three patch lines the loop state records one processed signed entry and
none unpatched), yet the subsequent consecutive `- / +` run drives
`replace_idx` out of range and `patching` raises `IndexError` instead of
returning a text. -/
theorem completion_policy_cex :
    patching_loop (formatCode ["a;"]) (formatPatchLines "@@ -1,2 +1,1 @@\n- a;\n- b;\n+ c;")
        (initPState (formatCode ["a;"]))
        ((formatPatchLines "@@ -1,2 +1,1 @@\n- a;\n- b;\n+ c;").enum.take 3) =
      .ok (PState.mk [Cell.s ""] [] 1 0 2) ∧
    patching "@@ -1,2 +1,1 @@\n- a;\n- b;\n+ c;" ["a;"] = .error .indexError := by
  exact ⟨rfl, rfl⟩

/-- C3 (amended): provided the pass over the patch lines completes
without raising, `patching` raises the No-Op failure exactly when the
count of unpatched signed entries equals the total count of signed
entries; partial application may additionally abort with an indexing or
type error raised by the mutation pass itself (see the counterexample),
in which case no text is returned. -/
theorem completion_policy_iff (patch : String) (src : List String) (st : PState)
    (hp : is_a_patch (formatPatchLines patch) = true)
    (hl : patching_loop (formatCode src) (formatPatchLines patch)
      (initPState (formatCode src)) (formatPatchLines patch).enum = .ok st) :
    (patching patch src = .error .noOp ↔ st.unpatched.length = st.to_patch) := by
  simp only [patching, hp, hl, Bool.not_true, Bool.false_eq_true, if_false]
  constructor
  · intro h
    by_contra hne
    rw [if_neg hne] at h
    exact reconstruct_ne_noOp st.patched h
  · intro h
    rw [if_pos h]

/-- Witness for C3 (amended) at a concrete input: the one-line patch
`"- q;"` applies to `["q;"]`, the final loop state has `0` unpatched
entries out of `1`, and indeed `patching` does not raise No-Op. -/
theorem completion_policy_iff_witness :
    patching "@@ -1,1 +1,1 @@\n- q;" ["q;"] = .error .noOp ↔
      (PState.mk [Cell.s ""] [] 1 0 2).unpatched.length =
        (PState.mk [Cell.s ""] [] 1 0 2).to_patch :=
  completion_policy_iff "@@ -1,1 +1,1 @@\n- q;" ["q;"]
    (PState.mk [Cell.s ""] [] 1 0 2) (by rfl) (by rfl)

/-! ### C2 (amended) — validation on the formatted lines -/

theorem any_eq_false_of_all_not {α : Type} (l : List α) (p : α → Bool)
    (h : l.all (fun x => !(p x)) = true) : l.any p = false := by
  induction l with
  | nil => rfl
  | cons x tl ih =>
    simp only [List.all_cons, Bool.and_eq_true, Bool.not_eq_true'] at h
    simp [List.any_cons, h.1, ih h.2]

/-- C2 (amended): the structural validation applies to the patch lines
after `_format_patch_lines`'s reformatting (which can move trailing hunk
header content onto its own line, creating a signed line the raw text did
not have).  Whenever the formatted lines contain no hunk-header line or
no signed line, `patching` raises the Malformed Patch failure before any
mutation; in particular a patch whose formatted lines consist only of
context lines fails with Malformed Patch rather than succeeding. -/
theorem malformed_validation_formatted (patch : String) (src : List String)
    (h : (formatPatchLines patch).all
          (fun ln => !(matchesHunkHeader (pyStrip ln))) = true ∨
         (formatPatchLines patch).all
          (fun ln => !(matchesSignedChar '-' (pyStrip ln) ||
            matchesSignedChar '+' (pyStrip ln))) = true) :
    patching patch src = .error .notAPatch := by
  have hfalse : is_a_patch (formatPatchLines patch) = false := by
    unfold is_a_patch
    rcases h with h | h
    · rw [any_eq_false_of_all_not _ _ h]
      rfl
    · rw [any_eq_false_of_all_not _ _ h]
      simp
  simp [patching, hfalse]

/-- Witness for C2 (amended): `"no diff here"` has no hunk header among
its formatted lines, and `patching` rejects it as Malformed. -/
theorem malformed_validation_formatted_witness :
    patching "no diff here" [] = Except.error PErr.notAPatch :=
  malformed_validation_formatted "no diff here" [] (Or.inl (by decide))

/-! ### C10 — the empty-source edge case -/

theorem matching_lines_empty_code (a : Option String) (s : Bool) :
    matching_lines a [] s = [] := by
  cases a <;> rfl

theorem findAMatchedLine_empty_code (pidx : Int) (pline : String)
    (plines : List String) (lag : Int) (ex : Bool) :
    findAMatchedLine pidx pline [] plines lag ex = -2 := by
  unfold findAMatchedLine
  simp [matching_lines, matchingLinesGo, matching_with_comments, unique_matching]

theorem searchValidGo_existing_nil (lines : List String) (incre : Int) :
    ∀ (fuel : Nat) (cur degree : Int),
      searchValidGo lines (some []) incre fuel cur degree = none := by
  intro fuel
  induction fuel with
  | zero => intro cur degree; rfl
  | succ n ih =>
    intro cur degree
    unfold searchValidGo
    split
    · simp [exist_line, ih]
    · rfl

theorem search_valid_line_existing_nil (lines : List String) (start : Int)
    (mode : String) (degree : Int) :
    search_valid_line lines start mode degree (some []) = none := by
  unfold search_valid_line
  exact searchValidGo_existing_nil lines _ _ _ _

theorem patch_step_empty_code {plines : List String} {st : PState}
    {pe : Nat × String} (hpat : st.patched = [])
    (hprev : st.prev_patch_idx = -1)
    (hcnt : st.unpatched.length = st.to_patch) :
    ∃ st', patch_step [] plines st pe = .ok st' ∧ st'.patched = [] ∧
      st'.prev_patch_idx = -1 ∧ st'.unpatched.length = st'.to_patch := by
  unfold patch_step
  have hc : ¬((0 : Int) ≤ st.prev_patch_idx) := by
    rw [hprev]
    norm_num
  by_cases h1 : matchesSignedChar '-' pe.2 = true
  · rw [if_pos h1, if_neg (by intro hx; exact hc hx.1)]
    rw [findAMatchedLine_empty_code]
    norm_num
    exact ⟨_, rfl, hpat, hprev, by simp [hcnt]⟩
  · rw [if_neg h1]
    by_cases h2 : matchesSignedChar '+' pe.2 = true
    · rw [if_pos h2, if_neg (by intro hx; exact hc hx.1)]
      have hpre :
          (match search_valid_line plines (pe.1 : Int) "pre" 1 none with
            | some pv =>
              let u := findAMatchedLine pv.1 pv.2 [] plines st.replace_idx false
              if 0 ≤ u then some u else none
            | none => none) = (none : Option Int) := by
        cases search_valid_line plines (pe.1 : Int) "pre" 1 none with
        | some pv => simp [findAMatchedLine_empty_code]
        | none => rfl
      rw [hpre, search_valid_line_existing_nil]
      exact ⟨_, rfl, hpat, hprev, by simp [hcnt]⟩
    · rw [if_neg h2]
      exact ⟨st, rfl, hpat, hprev, hcnt⟩

theorem patching_loop_empty_code (plines : List String) :
    ∀ (entries : List (Nat × String)) (st : PState), st.patched = [] →
      st.prev_patch_idx = -1 → st.unpatched.length = st.to_patch →
      ∃ st', patching_loop [] plines st entries = .ok st' ∧
        st'.unpatched.length = st'.to_patch := by
  intro entries
  induction entries with
  | nil =>
    intro st h1 h2 h3
    exact ⟨st, rfl, h3⟩
  | cons pe tl ih =>
    intro st h1 h2 h3
    obtain ⟨st1, hstep, hp1, hpr1, hc1⟩ := patch_step_empty_code h1 h2 h3
    obtain ⟨st', hloop, hc'⟩ := ih st1 hp1 hpr1 hc1
    refine ⟨st', ?_, hc'⟩
    unfold patching_loop at hloop ⊢
    simp only [List.foldlM_cons, bind, Except.bind]
    rw [hstep]
    exact hloop

/-- C10: with an empty source-line list, `patching` never returns a
string: the text is either rejected as Malformed Patch, or every signed
entry fails to resolve against the empty source (and the consecutive-run
shortcuts are unreachable because nothing ever applies), so the pass ends
with every signed entry unpatched and the No-Op failure is raised —
including for a patch with no signed lines at all, where `0 = 0`. -/
theorem empty_source_always_raises (patch : String) :
    patching patch [] = .error .notAPatch ∨ patching patch [] = .error .noOp := by
  by_cases hp : is_a_patch (formatPatchLines patch) = true
  · right
    obtain ⟨st', hloop, hc⟩ := patching_loop_empty_code (formatPatchLines patch)
      (formatPatchLines patch).enum (initPState []) rfl rfl rfl
    have hfc : formatCode ([] : List String) = [] := rfl
    simp only [patching, hp, Bool.not_true, Bool.false_eq_true, if_false, hfc]
    rw [hloop]
    simp [hc]
  · left
    have hfalse : is_a_patch (formatPatchLines patch) = false :=
      Bool.eq_false_iff.mpr hp
    simp [patching, hfalse]

/-! ### C8 — input immutability of the Patch Engine -/

theorem writeAt_getD_ne (s : Store) (r : Nat) (v : PyList) {q : Nat}
    (hq : q ≠ r) (d : PyList) : (writeAt s r v).getD q d = s.getD q d := by
  unfold writeAt
  simp [List.getD_eq_getElem?_getD, List.getElem?_set_ne (Ne.symm hq)]

theorem writeStrAt_getD_ne (s : Store) (r i : Nat) (v : String) {q : Nat}
    (hq : q ≠ r) (d : PyList) : (writeStrAt s r i v).getD q d = s.getD q d :=
  writeAt_getD_ne _ _ _ hq d

theorem writeAt_length (s : Store) (r : Nat) (v : PyList) :
    (writeAt s r v).length = s.length := by
  simp [writeAt]

theorem writeStrAt_length (s : Store) (r i : Nat) (v : String) :
    (writeStrAt s r i v).length = s.length :=
  writeAt_length _ _ _

theorem formatCodeStepStore_getD_ne (orig : List String) (r : Nat) (s : Store)
    (i : Nat) {q : Nat} (hq : q ≠ r) (d : PyList) :
    (formatCodeStepStore orig r s i).getD q d = s.getD q d := by
  simp only [formatCodeStepStore]
  split
  · split_ifs
    · rw [writeStrAt_getD_ne _ _ _ _ hq, writeStrAt_getD_ne _ _ _ _ hq]
    · rw [writeStrAt_getD_ne _ _ _ _ hq]
  · split_ifs
    · rw [writeStrAt_getD_ne _ _ _ _ hq, writeStrAt_getD_ne _ _ _ _ hq]
    · rfl

theorem formatCodeStepStore_length (orig : List String) (r : Nat) (s : Store)
    (i : Nat) : (formatCodeStepStore orig r s i).length = s.length := by
  simp only [formatCodeStepStore]
  split
  · split_ifs <;> simp [writeStrAt_length]
  · split_ifs <;> simp [writeStrAt_length]

theorem foldl_formatCodeStepStore_getD_ne (orig : List String) (r : Nat)
    {q : Nat} (hq : q ≠ r) (d : PyList) :
    ∀ (l : List Nat) (s : Store),
      (l.foldl (formatCodeStepStore orig r) s).getD q d = s.getD q d := by
  intro l
  induction l with
  | nil => intro s; rfl
  | cons i tl ih =>
    intro s
    rw [List.foldl_cons, ih, formatCodeStepStore_getD_ne _ _ _ _ hq]

theorem formatCodeStore_getD_ne (s : Store) (r : Nat) {q : Nat} (hq : q ≠ r)
    (d : PyList) : (formatCodeStore s r).getD q d = s.getD q d := by
  unfold formatCodeStore
  rw [foldl_formatCodeStepStore_getD_ne _ _ hq]

theorem foldl_formatCodeStepStore_length (orig : List String) (r : Nat) :
    ∀ (l : List Nat) (s : Store),
      (l.foldl (formatCodeStepStore orig r) s).length = s.length := by
  intro l
  induction l with
  | nil => intro s; rfl
  | cons i tl ih =>
    intro s
    rw [List.foldl_cons, ih, formatCodeStepStore_length]

theorem formatCodeStore_length (s : Store) (r : Nat) :
    (formatCodeStore s r).length = s.length := by
  unfold formatCodeStore
  rw [foldl_formatCodeStepStore_length]

theorem storeSetCell_getD_ne {s s' : Store} {r : Nat} {i : Int} {v : Cell}
    (h : storeSetCell s r i v = .ok s') {q : Nat} (hq : q ≠ r) (d : PyList) :
    s'.getD q d = s.getD q d := by
  unfold storeSetCell at h
  simp only [bind, Except.bind, pure, Except.pure] at h
  cases hps : pySetCell (readCells s r) i v with
  | error e =>
    rw [hps] at h
    cases h
  | ok l =>
    rw [hps] at h
    cases h
    exact writeAt_getD_ne _ _ _ hq d

theorem patch_step_store_getD_ne {c p : List String} {r2 : Nat}
    {store store' : Store} {st st' : SState} {pe : Nat × String}
    (h : patch_step_store c p r2 store st pe = .ok (store', st'))
    {q : Nat} (hq : q ≠ r2) (d : PyList) :
    store'.getD q d = store.getD q d := by
  unfold patch_step_store at h
  simp only [bind, Except.bind, pure, Except.pure] at h
  repeat' split at h
  all_goals cases h
  all_goals first
    | rfl
    | (exact storeSetCell_getD_ne (by assumption) hq d)

theorem patching_loop_store_getD_ne {c p : List String} (r2 q : Nat)
    (hq : q ≠ r2) (d : PyList) :
    ∀ (entries : List (Nat × String)) (store : Store) (st : SState)
      (storeF : Store) (res : Except PErr SState),
      patching_loop_store c p r2 store st entries = (storeF, res) →
      storeF.getD q d = store.getD q d := by
  intro entries
  induction entries with
  | nil =>
    intro store st storeF res h
    unfold patching_loop_store at h
    cases h
    rfl
  | cons pe tl ih =>
    intro store st storeF res h
    unfold patching_loop_store at h
    cases hstep : patch_step_store c p r2 store st pe with
    | error e =>
      rw [hstep] at h
      cases h
      rfl
    | ok pr =>
      obtain ⟨store2, st2⟩ := pr
      rw [hstep] at h
      rw [ih store2 st2 storeF res h, patch_step_store_getD_ne hstep hq d]

/-- C8: for every heap, every in-range address of the caller's
source-line list and every patch text, `storePatching` — whether it
returns a result or raises Malformed Patch, No-Op Patch or a runtime
error — leaves the object at the caller's address exactly as it was:
`_format_code` mutates only its fresh copy `out`, and the pass mutates
only the fresh `patched` copy. -/
theorem patching_preserves_caller_source (store : Store) (r0 : Nat)
    (patch : String) (h : r0 < store.length) :
    ((storePatching store r0 patch).2).getD r0 (PyList.strs []) =
      store.getD r0 (PyList.strs []) := by
  unfold storePatching
  by_cases hp : is_a_patch (formatPatchLines patch) = true
  · simp only [hp, Bool.not_true, Bool.false_eq_true, if_false]
    set S1 := store ++ [PyList.strs (readStrs store r0)] with hS1
    set S2 := formatCodeStore S1 store.length with hS2
    set CL := readStrs S2 store.length with hCL
    set S3 := S2 ++ [PyList.cells (CL.map Cell.s)] with hS3
    have hlen1 : S1.length = store.length + 1 := by
      rw [hS1]
      simp
    have hlen2 : S2.length = store.length + 1 := by
      rw [hS2, formatCodeStore_length, hlen1]
    have hr0S1 : S1.getD r0 (PyList.strs []) = store.getD r0 (PyList.strs []) := by
      rw [hS1]
      exact List.getD_append _ _ _ _ h
    have hr0S2 : S2.getD r0 (PyList.strs []) = S1.getD r0 (PyList.strs []) := by
      rw [hS2]
      exact formatCodeStore_getD_ne _ _ (by omega) _
    have hr0S3 : S3.getD r0 (PyList.strs []) = S2.getD r0 (PyList.strs []) := by
      rw [hS3]
      exact List.getD_append _ _ _ _ (by omega)
    have hchain : S3.getD r0 (PyList.strs []) = store.getD r0 (PyList.strs []) :=
      hr0S3.trans (hr0S2.trans hr0S1)
    split
    · rename_i sF e heq
      have hsF : sF.getD r0 (PyList.strs []) = S3.getD r0 (PyList.strs []) :=
        patching_loop_store_getD_ne S2.length r0 (by omega) (PyList.strs [])
          _ _ _ _ _ heq
      simpa using hsF.trans hchain
    · rename_i sF st heq
      have hsF : sF.getD r0 (PyList.strs []) = S3.getD r0 (PyList.strs []) :=
        patching_loop_store_getD_ne S2.length r0 (by omega) (PyList.strs [])
          _ _ _ _ _ heq
      have hfin := hsF.trans hchain
      rw [List.getD_eq_getElem?_getD, List.getD_eq_getElem?_getD] at hfin
      by_cases hcnt : st.unpatched.length = st.to_patch <;> simpa [hcnt] using hfin
  · have hfalse : is_a_patch (formatPatchLines patch) = false :=
      Bool.eq_false_iff.mpr hp
    simp [hfalse]

/-- Witness for C8: a one-object heap holding the caller's list
`["a"]`, which a malformed patch text leaves untouched. -/
theorem patching_preserves_caller_source_witness :
    ((storePatching [PyList.strs ["a"]] 0 "x").2).getD 0 (PyList.strs []) =
      ([PyList.strs ["a"]] : Store).getD 0 (PyList.strs []) :=
  patching_preserves_caller_source [PyList.strs ["a"]] 0 "x" (by decide)

end FedDualFix
